import Mathlib

/-!
Shallow embedding of the matchup-table engine of `src/MatchupTable.py`.

Modelling choices, all taken from the source:
* numpy float64 values are modelled by rationals.  Every number the program ever
  stores is produced by exact unit increments starting from 0.0 and by one short
  division, and Python's text serialization of a double is value-lossless, so
  the value-level model is faithful for the persisted artifact as well.
* a Python `dict` is modelled by an association list with the dict's
  insert-or-overwrite-in-place semantics (`dictInsert`) and first-match lookup
  (`dictLookup`); a dict's key column is nodup by construction.
* a csv file is modelled as its list of records (`List (List Cell)`), which is
  exactly what `csv.writer`/`csv.reader` round-trip; an empty record is the
  section divider.  `Cell.str` stands for a text field that does not parse as a
  number (card names), `Cell.int` for an integer field, `Cell.float` for a
  numeric field written from a float.
* `np.unique` on an int vector is modelled by a sorted deduplicating insertion
  (`npUnique`); fancy indexing `a[np.ix_(rs, cs)] += 1.0` by `bumpTable`.
* 2-D `np.array(rows)` construction rejects ragged input (`npArray2d`); the
  guards `if self.wins_table is None` never fire after a successful
  `__init_tables`, which is the only state the claims quantify over, so tables
  are total fields here.
* `load_from_csv` mutates `self` incrementally; the model returns the final
  state paired with an optional error, reproducing which mutations have already
  happened when an exception escapes (dict inserts are per-row atomic, the three
  `np.array` assignments happen in order after the read loop).
-/

namespace CRoyale

/-- Winner marker of a game, the closed three-way variant from the source. -/
inductive Winner
  | team
  | opponent
  | draw
deriving DecidableEq

/-- A deck as handed to `process_game`: main card names plus the tower-troop
support card names. -/
structure Deck where
  cards : List String
  supportCards : List String
deriving DecidableEq

/-- The `GameInfo` record handed to `process_game`. -/
structure GameInfo where
  winner : Winner
  team_crowns : Int
  opponent_crowns : Int
  team_deck : Deck
  opponent_deck : Deck
deriving DecidableEq

/-- One csv field.  `str` is a piece of text that does not parse as a number,
`int` a non-negative integer field (all integers the program writes are row or
card indices, hence non-negative), `float` a numeric field written from a
float. -/
inductive Cell
  | str (s : String)
  | int (n : Nat)
  | float (q : ℚ)
deriving DecidableEq

/-- Python `int(field)`: succeeds exactly on integer fields (it rejects both
non-numeric text and float renderings such as `1.0`). -/
def cellToInt : Cell → Option Nat
  | Cell.int n => some n
  | _ => none

/-- Python `float(field)`: succeeds on integer and float fields. -/
def cellToFloat : Cell → Option ℚ
  | Cell.int n => some n
  | Cell.float q => some q
  | Cell.str _ => none

/-- The text content of a field as `csv.reader` hands it back. -/
def cellToString : Cell → String
  | Cell.str s => s
  | Cell.int n => toString n
  | Cell.float q => toString q

/-- A dense 2-D float matrix, held as its list of rows. -/
abbrev Table := List (List ℚ)

/-- Read one matrix cell, with numpy's always-in-bounds accesses modelled by a
0 default outside the stored rows. -/
def getCell (t : Table) (i j : Nat) : ℚ := (t.getD i []).getD j 0

/-- Python dict assignment `d[k] = v`: overwrite in place keeping the key's
original insertion position, else append. -/
def dictInsert {α β : Type} [DecidableEq α] (d : List (α × β)) (k : α) (v : β) :
    List (α × β) :=
  match d with
  | [] => [(k, v)]
  | p :: rest => if p.1 = k then (k, v) :: rest else p :: dictInsert rest k v

/-- Python dict read `d.get(k)` / `k in d`. -/
def dictLookup {α β : Type} [DecidableEq α] (d : List (α × β)) (k : α) : Option β :=
  match d with
  | [] => none
  | p :: rest => if p.1 = k then some p.2 else dictLookup rest k

/-- Insert a value into a strictly sorted duplicate-free list, keeping it
strictly sorted and duplicate-free. -/
def insertUnique (x : Nat) : List Nat → List Nat
  | [] => [x]
  | y :: ys => if x < y then x :: y :: ys else if x = y then y :: ys else y :: insertUnique x ys

/-- `np.unique` on an integer vector: the sorted list of distinct values. -/
def npUnique (l : List Nat) : List Nat := l.foldr insertUnique []

/-- Map a list with access to each element's position, starting at `k`. -/
def mapIdxFrom {α β : Type} (f : Nat → α → β) : Nat → List α → List β
  | _, [] => []
  | k, x :: xs => f k x :: mapIdxFrom f (k + 1) xs

/-- `t[np.ix_(rs, cs)] += 1.0`: add 1 to every cell whose row index is in `rs`
and column index in `cs` (the index vectors fed to it are `np.unique` outputs,
so no cell is touched twice by one call). -/
def bumpTable (rs cs : List Nat) (t : Table) : Table :=
  mapIdxFrom
    (fun i row =>
      if i ∈ rs then mapIdxFrom (fun j v => if j ∈ cs then v + 1 else v) 0 row else row)
    0 t

/-- `np.zeros((n, n))`. -/
def zeroTable (n : Nat) : Table := List.replicate n (List.replicate n (0 : ℚ))

/-- Whether a list of rows is rectangular (all rows the same length). -/
def isRect : Table → Bool
  | [] => true
  | r :: rs => rs.all (fun row => row.length == r.length)

/-- The structural load errors the Python code can raise. -/
inductive LoadErr
  | fileNotFound
  | indexError
  | intParseError
  | floatParseError
  | raggedMatrix
deriving DecidableEq

/-- `np.array(rows, dtype=np.float64)` for a list of rows: numpy raises a
ValueError on an inhomogeneous (ragged) nesting and otherwise returns the
matrix unchanged. -/
def npArray2d (rows : Table) : Except LoadErr Table :=
  if isRect rows then Except.ok rows else Except.error LoadErr.raggedMatrix

/-- Accumulator state: the three tables, the two name/index dicts and the
processed-game counter (network client fields of the class are irrelevant to
the engine and omitted). -/
structure MatchupTable where
  wins_table : Table
  total_games_table : Table
  winrates_table : Table
  card_name_to_index : List (String × Nat)
  index_to_card_name : List (Nat × String)
  gamesProcessed : Nat
deriving DecidableEq

/-- `MatchupTable._indices_for_deck`: indices of the deck's known names
(`[self.card_name_to_index[name] for name in names if name in ...]`) passed
through `np.unique`. -/
def MatchupTable.indices_for_deck (self : MatchupTable) (deck : Deck) : List Nat :=
  npUnique ((deck.cards ++ deck.supportCards).filterMap (dictLookup self.card_name_to_index))

/-- `MatchupTable.process_game`: draws are a no-op, as is a game where either
deck resolves to an empty index vector; otherwise the winner's index cross
product is credited in the wins table, both orientations are recorded in the
total-games table, and the processed-game counter advances (the source binds
`team_idx`/`opp_idx` locally; they are inlined here). -/
def MatchupTable.process_game (self : MatchupTable) (game_info : GameInfo) : MatchupTable :=
  if game_info.winner = Winner.draw then self
  else if self.indices_for_deck game_info.team_deck = [] ∨
      self.indices_for_deck game_info.opponent_deck = [] then self
  else
    { self with
        wins_table :=
          if game_info.winner = Winner.team then
            bumpTable (self.indices_for_deck game_info.team_deck)
              (self.indices_for_deck game_info.opponent_deck) self.wins_table
          else if game_info.winner = Winner.opponent then
            bumpTable (self.indices_for_deck game_info.opponent_deck)
              (self.indices_for_deck game_info.team_deck) self.wins_table
          else self.wins_table
        total_games_table :=
          bumpTable (self.indices_for_deck game_info.opponent_deck)
            (self.indices_for_deck game_info.team_deck)
            (bumpTable (self.indices_for_deck game_info.team_deck)
              (self.indices_for_deck game_info.opponent_deck) self.total_games_table)
        gamesProcessed := self.gamesProcessed + 1 }

/-- `MatchupTable.winrate_function` (the Python default `smoothing=1.0` is
passed explicitly by the one caller). -/
def winrate_function (wins total_games smoothing : ℚ) : ℚ :=
  (wins + smoothing) / (total_games + 2 * smoothing)

/-- `MatchupTable.calculate_winrates`: loop over the shape of `wins_table`,
writing `winrate_function(wins[i,j], total[i,j])` into `winrates_table[i,j]`
(in every reachable state the two tables share that shape, so rebuilding the
winrates rows over the wins shape is the same assignment). -/
def MatchupTable.calculate_winrates (self : MatchupTable) : MatchupTable :=
  { self with
      winrates_table :=
        mapIdxFrom
          (fun i row =>
            mapIdxFrom (fun j wins => winrate_function wins (getCell self.total_games_table i j) 1)
              0 row)
          0 self.wins_table }

/-- `MatchupTable.save_to_csv`: name/index pairs, divider, then the three
tables, each row prefixed by its row index, with dividers in between. -/
def MatchupTable.save_to_csv (self : MatchupTable) : List (List Cell) :=
  self.card_name_to_index.map (fun p => [Cell.str p.1, Cell.int p.2])
    ++ [[]]
    ++ mapIdxFrom (fun i row => Cell.int i :: row.map Cell.float) 0 self.wins_table
    ++ [[]]
    ++ mapIdxFrom (fun i row => Cell.int i :: row.map Cell.float) 0 self.total_games_table
    ++ [[]]
    ++ mapIdxFrom (fun i row => Cell.int i :: row.map Cell.float) 0 self.winrates_table

/-- Mutable state of the `load_from_csv` read loop. -/
structure LoadState where
  dividers_hit : Nat
  cmap : List (String × Nat)
  imap : List (Nat × String)
  wins_rows : Table
  total_games_rows : Table
  winrates_rows : Table
deriving DecidableEq

/-- The read loop's state on entry. -/
def initLoadState : LoadState := ⟨0, [], [], [], [], []⟩

/-- `[float(x) for x in row[1:]]`: all-or-nothing float parse of a record's
tail. -/
def parseFloats : List Cell → Option (List ℚ)
  | [] => some []
  | c :: cs =>
    match cellToFloat c, parseFloats cs with
    | some q, some qs => some (q :: qs)
    | _, _ => none

/-- One iteration of the `load_from_csv` read loop: an empty record bumps the
divider count, otherwise the record is interpreted according to how many
dividers have been hit (0 = name/index pairs, 1 = wins rows, 2 = total rows,
3 = winrate rows, anything later is silently ignored). -/
def loadStep (st : LoadState) (row : List Cell) : Except LoadErr LoadState :=
  match row with
  | [] => Except.ok { st with dividers_hit := st.dividers_hit + 1 }
  | c0 :: rest =>
    if st.dividers_hit = 0 then
      match rest.head? with
      | none => Except.error LoadErr.indexError
      | some c1 =>
        match cellToInt c1 with
        | none => Except.error LoadErr.intParseError
        | some index =>
          Except.ok
            { st with
                cmap := dictInsert st.cmap (cellToString c0) index
                imap := dictInsert st.imap index (cellToString c0) }
    else if st.dividers_hit = 1 then
      match parseFloats rest with
      | none => Except.error LoadErr.floatParseError
      | some vals => Except.ok { st with wins_rows := st.wins_rows ++ [vals] }
    else if st.dividers_hit = 2 then
      match parseFloats rest with
      | none => Except.error LoadErr.floatParseError
      | some vals => Except.ok { st with total_games_rows := st.total_games_rows ++ [vals] }
    else if st.dividers_hit = 3 then
      match parseFloats rest with
      | none => Except.error LoadErr.floatParseError
      | some vals => Except.ok { st with winrates_rows := st.winrates_rows ++ [vals] }
    else Except.ok st

/-- Run the read loop over the records; an error stops the loop and reports the
state reached so far (each record's effect is atomic in the source: the dict
writes happen only after both reads of the record succeed). -/
def loadLoop (st : LoadState) : List (List Cell) → LoadState × Option LoadErr
  | [] => (st, none)
  | row :: rows =>
    match loadStep st row with
    | Except.ok st1 => loadLoop st1 rows
    | Except.error e => (st, some e)

/-- `MatchupTable.load_from_csv`.  `none` for the file stands for a missing
file.  The two dicts are cleared before the file is touched; on an error the
returned state holds exactly the mutations the source had committed when the
exception escaped (partial dicts, tables assigned in order wins, totals,
winrates after the loop). -/
def MatchupTable.load_from_csv (self : MatchupTable) (file : Option (List (List Cell))) :
    MatchupTable × Option LoadErr :=
  let cleared := { self with card_name_to_index := [], index_to_card_name := ([] : List (Nat × String)) }
  match file with
  | none => (cleared, some LoadErr.fileNotFound)
  | some rows =>
    match loadLoop initLoadState rows with
    | (st, some e) =>
      ({ cleared with card_name_to_index := st.cmap, index_to_card_name := st.imap }, some e)
    | (st, none) =>
      let afterLoop :=
        { cleared with card_name_to_index := st.cmap, index_to_card_name := st.imap }
      match npArray2d st.wins_rows with
      | Except.error e => (afterLoop, some e)
      | Except.ok w =>
        match npArray2d st.total_games_rows with
        | Except.error e => ({ afterLoop with wins_table := w }, some e)
        | Except.ok t =>
          match npArray2d st.winrates_rows with
          | Except.error e =>
            ({ afterLoop with wins_table := w, total_games_table := t }, some e)
          | Except.ok wr =>
            ({ afterLoop with
                wins_table := w
                total_games_table := t
                winrates_table := wr }, none)

/-- `MatchupTable.__init_tables`, abstracted over the catalog listing the api
returns (concatenated main cards and tower troops, in response order): builds
both dicts from the enumerated lowercased names and zeroes the three tables. -/
def init_tables (allCards : List String) : MatchupTable :=
  { wins_table := zeroTable allCards.length
    total_games_table := zeroTable allCards.length
    winrates_table := zeroTable allCards.length
    card_name_to_index := allCards.enum.foldl (fun d p => dictInsert d p.2.toLower p.1) []
    index_to_card_name := allCards.enum.foldl (fun d p => dictInsert d p.1 p.2.toLower) []
    gamesProcessed := 0 }

/-- Replay a sequence of dict assignments `d[k] = v` onto `acc`. -/
def insertList {α β : Type} [DecidableEq α] (acc : List (α × β)) (ps : List (α × β)) :
    List (α × β) :=
  ps.foldl (fun d p => dictInsert d p.1 p.2) acc

/-- An n-by-n table: n rows, each of length n. -/
def SqShape (t : Table) (n : Nat) : Prop :=
  t.length = n ∧ ∀ i, i < n → (t.getD i []).length = n

/-- A one-letter card name used by concrete witness states. -/
def nmA : String := String.mk [Char.ofNat 97]

/-- A second one-letter card name used by concrete witness states. -/
def nmB : String := String.mk [Char.ofNat 98]

/-- A third one-letter card name used by concrete witness states. -/
def nmC : String := String.mk [Char.ofNat 99]

/-- A non-numeric text payload standing where a float field is expected. -/
def nmX : String := String.mk [Char.ofNat 120]

/-- A concrete well-formed accumulator state with two cards and mixed table
values, used as the saved side of round-trip witnesses. -/
def mtW : MatchupTable :=
  { wins_table := [[1, 2], [0, 3]]
    total_games_table := [[2, 2], [1, 3]]
    winrates_table := [[1/2, 3/4], [1/3, 4/5]]
    card_name_to_index := [(nmA, 0), (nmB, 1)]
    index_to_card_name := [(0, nmA), (1, nmB)]
    gamesProcessed := 5 }

/-- A concrete second instance with different contents, used as the loading
side of round-trip witnesses. -/
def mt2W : MatchupTable :=
  { wins_table := [[7]]
    total_games_table := [[7]]
    winrates_table := [[7]]
    card_name_to_index := [(nmC, 9)]
    index_to_card_name := [(9, nmC)]
    gamesProcessed := 42 }

/-- A concrete fresh 2-by-2 zero state whose catalog maps `nmA` to 0 and `nmB`
to 1. -/
def mtZ2 : MatchupTable :=
  { wins_table := zeroTable 2
    total_games_table := zeroTable 2
    winrates_table := zeroTable 2
    card_name_to_index := [(nmA, 0), (nmB, 1)]
    index_to_card_name := [(0, nmA), (1, nmB)]
    gamesProcessed := 0 }

/-- A concrete deck holding only the card `nmA`. -/
def deckA : Deck := { cards := [nmA], supportCards := [] }

/-- A concrete deck holding only the card `nmB`. -/
def deckB : Deck := { cards := [nmB], supportCards := [] }

/-- A concrete game: `deckA` beats `deckB`. -/
def gW : GameInfo :=
  { winner := Winner.team
    team_crowns := 3
    opponent_crowns := 0
    team_deck := deckA
    opponent_deck := deckB }

/-- The same concrete game recorded as a draw. -/
def gDrawW : GameInfo :=
  { winner := Winner.draw
    team_crowns := 1
    opponent_crowns := 1
    team_deck := deckA
    opponent_deck := deckB }

/-- A concrete artifact whose winrates section and final delimiter are missing
and whose totals section has a different column count from the wins section. -/
def fileMissingSection : List (List Cell) :=
  [[Cell.str nmA, Cell.int 0], [], [Cell.int 0, Cell.float 1], [],
    [Cell.int 0, Cell.float 2, Cell.float 3]]

/-- A concrete artifact with a non-numeric cell inside the wins section. -/
def fileNonNumeric : List (List Cell) :=
  [[Cell.str nmA, Cell.int 0], [], [Cell.int 0, Cell.str nmX]]

/-- A concrete artifact whose wins section has rows of different lengths. -/
def fileRagged : List (List Cell) :=
  [[], [Cell.int 0, Cell.float 1, Cell.float 2], [Cell.int 1, Cell.float 3]]

/-- A concrete well-formed artifact with one card and 1-by-1 sections. -/
def fileGood : List (List Cell) :=
  [[Cell.str nmA, Cell.int 0], [], [Cell.int 0, Cell.float 1], [],
    [Cell.int 0, Cell.float 2], [], [Cell.int 0, Cell.float (1/2)]]

/-- A concrete artifact whose wins row has a non-numeric cell in the leading
(row-index) position, which the loader discards unread; its value cells are
all numeric. -/
def fileLeadStr : List (List Cell) :=
  [[Cell.str nmA, Cell.int 0], [], [Cell.str nmX, Cell.float 1], [],
    [Cell.int 0, Cell.float 2], [], [Cell.int 0, Cell.float (1/2)]]

theorem mapIdxFrom_length {α β : Type} (f : Nat → α → β) (k : Nat) (l : List α) :
    (mapIdxFrom f k l).length = l.length := by
  induction l generalizing k with
  | nil => rfl
  | cons x xs ih => simp [mapIdxFrom, ih]

theorem mapIdxFrom_getD {α : Type} (f : Nat → α → α) (l : List α) (k n : Nat) (d : α) :
    (mapIdxFrom f k l).getD n d = if n < l.length then f (k + n) (l.getD n d) else d := by
  induction l generalizing k n with
  | nil => simp [mapIdxFrom]
  | cons x xs ih =>
    cases n with
    | zero => simp [mapIdxFrom]
    | succ m =>
      simp only [mapIdxFrom, List.getD_cons_succ, ih (k + 1) m, List.length_cons,
        Nat.add_lt_add_iff_right]
      rw [Nat.add_assoc, Nat.add_comm 1 m]

theorem bumpTable_length (rs cs : List Nat) (t : Table) :
    (bumpTable rs cs t).length = t.length :=
  mapIdxFrom_length _ _ _

theorem bumpTable_row_length (rs cs : List Nat) (t : Table) (i : Nat) :
    ((bumpTable rs cs t).getD i []).length = (t.getD i []).length := by
  unfold bumpTable
  rw [mapIdxFrom_getD]
  by_cases hi : i < t.length
  · rw [if_pos hi]
    by_cases hr : (0 + i) ∈ rs
    · rw [if_pos hr, mapIdxFrom_length]
    · rw [if_neg hr]
  · rw [if_neg hi, List.getD_eq_default _ _ (Nat.le_of_not_lt hi)]

theorem getCell_bumpTable (rs cs : List Nat) (t : Table) (i j : Nat) :
    getCell (bumpTable rs cs t) i j =
      getCell t i j +
        (if i ∈ rs ∧ j ∈ cs ∧ i < t.length ∧ j < (t.getD i []).length then 1 else 0) := by
  unfold getCell bumpTable
  rw [mapIdxFrom_getD]
  by_cases hi : i < t.length
  · rw [if_pos hi]
    simp only [Nat.zero_add]
    by_cases hr : i ∈ rs
    · rw [if_pos hr, mapIdxFrom_getD]
      by_cases hj : j < (t.getD i []).length
      · rw [if_pos hj]
        simp only [Nat.zero_add]
        by_cases hc : j ∈ cs
        · rw [if_pos hc, if_pos ⟨hr, hc, hi, hj⟩]
        · rw [if_neg hc, if_neg (fun hcon => hc hcon.2.1), add_zero]
      · rw [if_neg hj, List.getD_eq_default (t.getD i []) 0 (Nat.le_of_not_lt hj),
          if_neg (fun hcon => hj hcon.2.2.2), add_zero]
    · rw [if_neg hr, if_neg (fun hcon => hr hcon.1), add_zero]
  · rw [if_neg hi, if_neg (fun hcon => hi hcon.2.2.1),
      List.getD_eq_default t [] (Nat.le_of_not_lt hi), add_zero, List.getD_nil]

theorem getD_replicate_self {α : Type} (a : α) (n i : Nat) :
    (List.replicate n a).getD i a = a := by
  induction n generalizing i with
  | zero => simp
  | succ m ih => cases i <;> simp [List.replicate_succ, ih]

theorem zeroTable_length (n : Nat) : (zeroTable n).length = n := by
  simp [zeroTable]

theorem zeroTable_row (n i : Nat) (h : i < n) :
    (zeroTable n).getD i [] = List.replicate n (0 : ℚ) := by
  unfold zeroTable
  rw [List.getD_eq_getElem _ _ (by simpa using h), List.getElem_replicate]

theorem getCell_zeroTable (n i j : Nat) : getCell (zeroTable n) i j = 0 := by
  unfold getCell
  by_cases hi : i < n
  · rw [zeroTable_row n i hi, getD_replicate_self]
  · rw [List.getD_eq_default (zeroTable n) [] (by rw [zeroTable_length]; omega), List.getD_nil]

theorem SqShape_zeroTable (n : Nat) : SqShape (zeroTable n) n := by
  refine ⟨zeroTable_length n, fun i hi => ?_⟩
  rw [zeroTable_row n i hi, List.length_replicate]

theorem SqShape_bumpTable {t : Table} {n : Nat} (rs cs : List Nat) (hs : SqShape t n) :
    SqShape (bumpTable rs cs t) n := by
  refine ⟨by rw [bumpTable_length, hs.1], fun i hi => ?_⟩
  rw [bumpTable_row_length]
  exact hs.2 i hi

theorem sq_bounds {t : Table} {n : Nat} (hs : SqShape t n) (i j : Nat) :
    (i < t.length ∧ j < (t.getD i []).length) ↔ (i < n ∧ j < n) := by
  obtain ⟨hl, hr⟩ := hs
  constructor
  · rintro ⟨h1, h2⟩
    have hin : i < n := by omega
    refine ⟨hin, ?_⟩
    rw [hr i hin] at h2
    exact h2
  · rintro ⟨h1, h2⟩
    refine ⟨by omega, ?_⟩
    rw [hr i h1]
    exact h2

theorem getCell_bumpTable_sq {t : Table} {n : Nat} (hs : SqShape t n) (rs cs : List Nat)
    (i j : Nat) :
    getCell (bumpTable rs cs t) i j =
      getCell t i j + (if i ∈ rs ∧ j ∈ cs ∧ i < n ∧ j < n then 1 else 0) := by
  rw [getCell_bumpTable]
  congr 1
  refine if_congr ?_ rfl rfl
  constructor
  · rintro ⟨h1, h2, h3, h4⟩
    obtain ⟨hc, hd⟩ := (sq_bounds hs i j).mp ⟨h3, h4⟩
    exact ⟨h1, h2, hc, hd⟩
  · rintro ⟨h1, h2, h3, h4⟩
    obtain ⟨hc, hd⟩ := (sq_bounds hs i j).mpr ⟨h3, h4⟩
    exact ⟨h1, h2, hc, hd⟩

theorem mem_insertUnique (x a : Nat) (l : List Nat) :
    a ∈ insertUnique x l ↔ a = x ∨ a ∈ l := by
  induction l with
  | nil => simp [insertUnique]
  | cons y ys ih =>
    by_cases h1 : x < y
    · simp [insertUnique, h1]
    · by_cases h2 : x = y
      · subst h2
        rw [insertUnique, if_neg h1, if_pos rfl]
        simp only [List.mem_cons]
        tauto
      · simp only [insertUnique, if_neg h1, if_neg h2, List.mem_cons, ih]
        tauto

theorem pairwise_insertUnique (x : Nat) (l : List Nat) (h : l.Pairwise (· < ·)) :
    (insertUnique x l).Pairwise (· < ·) := by
  induction l with
  | nil => simp [insertUnique]
  | cons y ys ih =>
    rcases List.pairwise_cons.mp h with ⟨hy, hys⟩
    by_cases h1 : x < y
    · rw [insertUnique, if_pos h1]
      refine List.pairwise_cons.mpr ⟨?_, h⟩
      intro a ha
      rcases List.mem_cons.mp ha with rfl | ha
      · exact h1
      · exact lt_trans h1 (hy a ha)
    · by_cases h2 : x = y
      · rw [insertUnique, if_neg h1, if_pos h2]
        exact h
      · rw [insertUnique, if_neg h1, if_neg h2]
        refine List.pairwise_cons.mpr ⟨?_, ih hys⟩
        intro a ha
        rcases (mem_insertUnique x a ys).mp ha with rfl | ha
        · omega
        · exact hy a ha

theorem npUnique_pairwise (l : List Nat) : (npUnique l).Pairwise (· < ·) := by
  induction l with
  | nil => simp [npUnique]
  | cons x xs ih => exact pairwise_insertUnique x _ ih

theorem npUnique_nodup (l : List Nat) : (npUnique l).Nodup :=
  (npUnique_pairwise l).imp (fun h => Nat.ne_of_lt h)

theorem mem_npUnique (a : Nat) (l : List Nat) : a ∈ npUnique l ↔ a ∈ l := by
  induction l with
  | nil => simp [npUnique]
  | cons x xs ih =>
    show a ∈ insertUnique x (npUnique xs) ↔ _
    rw [mem_insertUnique, ih]
    simp

theorem npUnique_eq_nil (l : List Nat) : npUnique l = [] ↔ l = [] := by
  constructor
  · intro h
    cases l with
    | nil => rfl
    | cons x xs =>
      exact absurd h (List.ne_nil_of_mem ((mem_npUnique x _).mpr (List.mem_cons_self _ _)))
  · rintro rfl
    rfl

theorem dictInsert_of_not_mem {α β : Type} [DecidableEq α] (d : List (α × β)) (k : α) (v : β)
    (h : k ∉ d.map Prod.fst) : dictInsert d k v = d ++ [(k, v)] := by
  induction d with
  | nil => rfl
  | cons p rest ih =>
    simp only [List.map_cons, List.mem_cons] at h
    push_neg at h
    simp only [dictInsert]
    rw [if_neg (fun hh => h.1 hh.symm), ih h.2]
    rfl

theorem insertList_eq_append {α β : Type} [DecidableEq α] (ps : List (α × β)) :
    ∀ acc : List (α × β), (ps.map Prod.fst).Nodup →
      (∀ k, k ∈ ps.map Prod.fst → k ∉ acc.map Prod.fst) →
      insertList acc ps = acc ++ ps := by
  induction ps with
  | nil =>
    intro acc _ _
    simp [insertList]
  | cons p rest ih =>
    intro acc hnd hdisj
    have hmem : p.1 ∉ acc.map Prod.fst := hdisj p.1 (by simp)
    have hnd2 : (rest.map Prod.fst).Nodup := by
      simp only [List.map_cons, List.nodup_cons] at hnd
      exact hnd.2
    have hp1 : p.1 ∉ rest.map Prod.fst := by
      simp only [List.map_cons, List.nodup_cons] at hnd
      exact hnd.1
    have hdisj2 : ∀ k, k ∈ rest.map Prod.fst → k ∉ (acc ++ [(p.1, p.2)]).map Prod.fst := by
      intro k hk
      simp only [List.map_append, List.mem_append, List.map_cons, List.map_nil,
        List.mem_singleton]
      rintro (hka | hkp)
      · exact hdisj k (by simp [hk]) hka
      · subst hkp
        exact hp1 hk
    have step : insertList acc (p :: rest) = insertList (acc ++ [(p.1, p.2)]) rest := by
      simp [insertList, dictInsert_of_not_mem acc p.1 p.2 hmem]
    rw [step, ih (acc ++ [(p.1, p.2)]) hnd2 hdisj2]
    simp

theorem parseFloats_map (l : List ℚ) : parseFloats (l.map Cell.float) = some l := by
  induction l with
  | nil => rfl
  | cons q qs ih => simp [parseFloats, cellToFloat, ih]

theorem loadLoop_divider (d : Nat) (c : List (String × Nat)) (im : List (Nat × String))
    (w t wr : Table) (rest : List (List Cell)) :
    loadLoop ⟨d, c, im, w, t, wr⟩ ([] :: rest) = loadLoop ⟨d + 1, c, im, w, t, wr⟩ rest := rfl

theorem loadLoop_mapping_block (ps : List (String × Nat)) :
    ∀ (c : List (String × Nat)) (im : List (Nat × String)) (w t wr : Table)
      (rest : List (List Cell)),
      loadLoop ⟨0, c, im, w, t, wr⟩ (ps.map (fun p => [Cell.str p.1, Cell.int p.2]) ++ rest) =
        loadLoop ⟨0, insertList c ps, insertList im (ps.map (fun p => (p.2, p.1))), w, t, wr⟩
          rest := by
  induction ps with
  | nil =>
    intro c im w t wr rest
    simp [insertList]
  | cons p pr ih =>
    intro c im w t wr rest
    have hstep : loadStep ⟨0, c, im, w, t, wr⟩ [Cell.str p.1, Cell.int p.2] =
        Except.ok ⟨0, dictInsert c p.1 p.2, dictInsert im p.2 p.1, w, t, wr⟩ := by
      simp [loadStep, cellToInt, cellToString]
    simp only [List.map_cons, List.cons_append, loadLoop, hstep]
    exact ih (dictInsert c p.1 p.2) (dictInsert im p.2 p.1) w t wr rest

theorem loadLoop_wins_block (tb : Table) :
    ∀ (c : List (String × Nat)) (im : List (Nat × String)) (w t wr : Table) (k : Nat)
      (rest : List (List Cell)),
      loadLoop ⟨1, c, im, w, t, wr⟩
          (mapIdxFrom (fun i row => Cell.int i :: row.map Cell.float) k tb ++ rest) =
        loadLoop ⟨1, c, im, w ++ tb, t, wr⟩ rest := by
  induction tb with
  | nil =>
    intro c im w t wr k rest
    simp [mapIdxFrom]
  | cons r tr ih =>
    intro c im w t wr k rest
    have hstep : loadStep ⟨1, c, im, w, t, wr⟩ (Cell.int k :: r.map Cell.float) =
        Except.ok ⟨1, c, im, w ++ [r], t, wr⟩ := by
      simp [loadStep, parseFloats_map]
    simp only [mapIdxFrom, List.cons_append, List.append_eq, loadLoop, hstep]
    rw [ih c im (w ++ [r]) t wr (k + 1) rest]
    simp [List.append_assoc]

theorem loadLoop_total_block (tb : Table) :
    ∀ (c : List (String × Nat)) (im : List (Nat × String)) (w t wr : Table) (k : Nat)
      (rest : List (List Cell)),
      loadLoop ⟨2, c, im, w, t, wr⟩
          (mapIdxFrom (fun i row => Cell.int i :: row.map Cell.float) k tb ++ rest) =
        loadLoop ⟨2, c, im, w, t ++ tb, wr⟩ rest := by
  induction tb with
  | nil =>
    intro c im w t wr k rest
    simp [mapIdxFrom]
  | cons r tr ih =>
    intro c im w t wr k rest
    have hstep : loadStep ⟨2, c, im, w, t, wr⟩ (Cell.int k :: r.map Cell.float) =
        Except.ok ⟨2, c, im, w, t ++ [r], wr⟩ := by
      simp [loadStep, parseFloats_map]
    simp only [mapIdxFrom, List.cons_append, List.append_eq, loadLoop, hstep]
    rw [ih c im w (t ++ [r]) wr (k + 1) rest]
    simp [List.append_assoc]

theorem loadLoop_winrates_block (tb : Table) :
    ∀ (c : List (String × Nat)) (im : List (Nat × String)) (w t wr : Table) (k : Nat)
      (rest : List (List Cell)),
      loadLoop ⟨3, c, im, w, t, wr⟩
          (mapIdxFrom (fun i row => Cell.int i :: row.map Cell.float) k tb ++ rest) =
        loadLoop ⟨3, c, im, w, t, wr ++ tb⟩ rest := by
  induction tb with
  | nil =>
    intro c im w t wr k rest
    simp [mapIdxFrom]
  | cons r tr ih =>
    intro c im w t wr k rest
    have hstep : loadStep ⟨3, c, im, w, t, wr⟩ (Cell.int k :: r.map Cell.float) =
        Except.ok ⟨3, c, im, w, t, wr ++ [r]⟩ := by
      simp [loadStep, parseFloats_map]
    simp only [mapIdxFrom, List.cons_append, List.append_eq, loadLoop, hstep]
    rw [ih c im w t (wr ++ [r]) (k + 1) rest]
    simp [List.append_assoc]

theorem npArray2d_ok {rows w : Table} (h : npArray2d rows = Except.ok w) :
    w = rows ∧ isRect rows = true := by
  unfold npArray2d at h
  by_cases hr : isRect rows
  · rw [if_pos hr] at h
    injection h with h
    exact ⟨h.symm, hr⟩
  · rw [if_neg hr] at h
    cases h

theorem process_game_draw (mt : MatchupTable) (g : GameInfo) (hd : g.winner = Winner.draw) :
    mt.process_game g = mt := by
  unfold MatchupTable.process_game
  rw [if_pos hd]

theorem process_game_skip (mt : MatchupTable) (g : GameInfo) (hd : g.winner ≠ Winner.draw)
    (he : mt.indices_for_deck g.team_deck = [] ∨ mt.indices_for_deck g.opponent_deck = []) :
    mt.process_game g = mt := by
  unfold MatchupTable.process_game
  rw [if_neg hd, if_pos he]

theorem process_game_active (mt : MatchupTable) (g : GameInfo) (hd : g.winner ≠ Winner.draw)
    (he : ¬(mt.indices_for_deck g.team_deck = [] ∨ mt.indices_for_deck g.opponent_deck = [])) :
    mt.process_game g =
      { mt with
          wins_table :=
            if g.winner = Winner.team then
              bumpTable (mt.indices_for_deck g.team_deck) (mt.indices_for_deck g.opponent_deck)
                mt.wins_table
            else if g.winner = Winner.opponent then
              bumpTable (mt.indices_for_deck g.opponent_deck) (mt.indices_for_deck g.team_deck)
                mt.wins_table
            else mt.wins_table
          total_games_table :=
            bumpTable (mt.indices_for_deck g.opponent_deck) (mt.indices_for_deck g.team_deck)
              (bumpTable (mt.indices_for_deck g.team_deck) (mt.indices_for_deck g.opponent_deck)
                mt.total_games_table)
          gamesProcessed := mt.gamesProcessed + 1 } := by
  unfold MatchupTable.process_game
  rw [if_neg hd, if_neg he]

theorem getCell_doubleBump (rs cs : List Nat) (t : Table) (i j : Nat) :
    getCell (bumpTable cs rs (bumpTable rs cs t)) i j =
      getCell t i j
        + (if i ∈ rs ∧ j ∈ cs ∧ i < t.length ∧ j < (t.getD i []).length then 1 else 0)
        + (if i ∈ cs ∧ j ∈ rs ∧ i < t.length ∧ j < (t.getD i []).length then 1 else 0) := by
  rw [getCell_bumpTable, getCell_bumpTable, bumpTable_length, bumpTable_row_length]

theorem getCell_doubleBump_sq {t : Table} {n : Nat} (hs : SqShape t n) (rs cs : List Nat)
    (i j : Nat) :
    getCell (bumpTable cs rs (bumpTable rs cs t)) i j =
      getCell t i j
        + (if i ∈ rs ∧ j ∈ cs ∧ i < n ∧ j < n then 1 else 0)
        + (if i ∈ cs ∧ j ∈ rs ∧ i < n ∧ j < n then 1 else 0) := by
  rw [getCell_bumpTable_sq (SqShape_bumpTable rs cs hs) cs rs,
    getCell_bumpTable_sq hs rs cs]

theorem getCell_calculate_winrates (mt : MatchupTable) (i j : Nat)
    (hi : i < mt.wins_table.length) (hj : j < (mt.wins_table.getD i []).length) :
    getCell mt.calculate_winrates.winrates_table i j =
      winrate_function (getCell mt.wins_table i j) (getCell mt.total_games_table i j) 1 := by
  show getCell
      (mapIdxFrom
        (fun i row =>
          mapIdxFrom (fun j wins => winrate_function wins (getCell mt.total_games_table i j) 1)
            0 row)
        0 mt.wins_table) i j = _
  unfold getCell
  rw [mapIdxFrom_getD, if_pos hi]
  simp only [Nat.zero_add]
  rw [mapIdxFrom_getD, if_pos hj]
  simp only [Nat.zero_add]

/-- C7: `_indices_for_deck` returns exactly the indices of the deck names
present in the `card_name_to_index` dict (unknown names silently dropped), with
no duplicates; as a pure function of the dict and the deck it is deterministic
by construction. -/
theorem C7_indices_for_deck_spec (mt : MatchupTable) (deck : Deck) :
    (∀ i : Nat,
        i ∈ mt.indices_for_deck deck ↔
          ∃ name, name ∈ deck.cards ++ deck.supportCards ∧
            dictLookup mt.card_name_to_index name = some i)
    ∧ (mt.indices_for_deck deck).Nodup := by
  constructor
  · intro i
    unfold MatchupTable.indices_for_deck
    rw [mem_npUnique, List.mem_filterMap]
  · exact npUnique_nodup _

/-- C5: a draw, or a game where either deck resolves to an empty index set,
leaves the whole state (both matrices and the counter) unchanged, and the
processed-game counter advances exactly on the remaining games. -/
theorem C5_skip_frame (mt : MatchupTable) (g : GameInfo) :
    ((g.winner = Winner.draw ∨ mt.indices_for_deck g.team_deck = [] ∨
        mt.indices_for_deck g.opponent_deck = []) →
      mt.process_game g = mt)
    ∧ ((mt.process_game g).gamesProcessed = mt.gamesProcessed + 1 ↔
        ¬(g.winner = Winner.draw ∨ mt.indices_for_deck g.team_deck = [] ∨
          mt.indices_for_deck g.opponent_deck = [])) := by
  by_cases hd : g.winner = Winner.draw
  · rw [process_game_draw mt g hd]
    refine ⟨fun _ => rfl, ?_⟩
    constructor
    · intro h
      omega
    · intro h
      exact absurd (Or.inl hd) h
  · by_cases he : mt.indices_for_deck g.team_deck = [] ∨
        mt.indices_for_deck g.opponent_deck = []
    · rw [process_game_skip mt g hd he]
      refine ⟨fun _ => rfl, ?_⟩
      constructor
      · intro h
        omega
      · intro h
        exact absurd (Or.inr he) h
    · rw [process_game_active mt g hd he]
      refine ⟨fun h => ?_, ?_⟩
      · rcases h with h | h
        · exact absurd h hd
        · exact absurd h he
      · constructor
        · intro _ h
          rcases h with h | h
          · exact hd h
          · exact he h
        · intro _
          rfl

/-- C5 witness: the concrete draw game leaves the concrete fresh state
untouched. -/
theorem C5_skip_frame_witness : mtZ2.process_game gDrawW = mtZ2 :=
  (C5_skip_frame mtZ2 gDrawW).1 (Or.inl rfl)

/-- C2: on a non-skipped game, every wins cell in the winning side's
team-by-opponent index cross product gains exactly 1 (with roles swapped when
the opponent wins), every total-games cell gains 1 for each orientation of the
cross product it lies in, and no other in-bounds cell of either matrix
changes. -/
theorem C2_process_game_effect (mt : MatchupTable) (g : GameInfo) (a b : Nat)
    (hT : mt.indices_for_deck g.team_deck ≠ [])
    (hO : mt.indices_for_deck g.opponent_deck ≠ [])
    (haw : a < mt.wins_table.length)
    (hbw : b < (mt.wins_table.getD a []).length)
    (hat : a < mt.total_games_table.length)
    (hbt : b < (mt.total_games_table.getD a []).length) :
    (g.winner = Winner.team →
        getCell (mt.process_game g).wins_table a b =
          getCell mt.wins_table a b +
            (if a ∈ mt.indices_for_deck g.team_deck ∧
                b ∈ mt.indices_for_deck g.opponent_deck then 1 else 0))
    ∧ (g.winner = Winner.opponent →
        getCell (mt.process_game g).wins_table a b =
          getCell mt.wins_table a b +
            (if a ∈ mt.indices_for_deck g.opponent_deck ∧
                b ∈ mt.indices_for_deck g.team_deck then 1 else 0))
    ∧ (g.winner ≠ Winner.draw →
        getCell (mt.process_game g).total_games_table a b =
          getCell mt.total_games_table a b +
            (if a ∈ mt.indices_for_deck g.team_deck ∧
                b ∈ mt.indices_for_deck g.opponent_deck then 1 else 0) +
            (if a ∈ mt.indices_for_deck g.opponent_deck ∧
                b ∈ mt.indices_for_deck g.team_deck then 1 else 0)) := by
  have he : ¬(mt.indices_for_deck g.team_deck = [] ∨
      mt.indices_for_deck g.opponent_deck = []) := by
    rintro (h | h)
    · exact hT h
    · exact hO h
  have hbw2 : b < mt.wins_table[a].length := by
    rwa [List.getD_eq_getElem mt.wins_table [] haw] at hbw
  have hbt2 : b < mt.total_games_table[a].length := by
    rwa [List.getD_eq_getElem mt.total_games_table [] hat] at hbt
  refine ⟨?_, ?_, ?_⟩
  · intro hw
    have hd : g.winner ≠ Winner.draw := by
      rw [hw]
      exact fun h => Winner.noConfusion h
    rw [process_game_active mt g hd he]
    dsimp only
    rw [if_pos hw, getCell_bumpTable]
    by_cases h1 : a ∈ mt.indices_for_deck g.team_deck <;>
      by_cases h2 : b ∈ mt.indices_for_deck g.opponent_deck <;>
        simp [h1, h2, haw, hbw, hbw2]
  · intro hw
    have hd : g.winner ≠ Winner.draw := by
      rw [hw]
      exact fun h => Winner.noConfusion h
    rw [process_game_active mt g hd he]
    have hnt : g.winner ≠ Winner.team := by
      rw [hw]
      exact fun h => Winner.noConfusion h
    dsimp only
    rw [if_neg hnt, if_pos hw, getCell_bumpTable]
    by_cases h1 : a ∈ mt.indices_for_deck g.opponent_deck <;>
      by_cases h2 : b ∈ mt.indices_for_deck g.team_deck <;>
        simp [h1, h2, haw, hbw, hbw2]
  · intro hd
    rw [process_game_active mt g hd he]
    show getCell (bumpTable _ _ (bumpTable _ _ _)) a b = _
    rw [getCell_doubleBump]
    by_cases h1 : a ∈ mt.indices_for_deck g.team_deck <;>
      by_cases h2 : b ∈ mt.indices_for_deck g.opponent_deck <;>
        by_cases h3 : a ∈ mt.indices_for_deck g.opponent_deck <;>
          by_cases h4 : b ∈ mt.indices_for_deck g.team_deck <;>
            simp [h1, h2, h3, h4, hat, hbt, hbt2]

/-- C2 witness: processing the concrete game where deck `nmA` beats deck `nmB`
on the fresh 2-by-2 state adds 1 to the wins cell (0, 1). -/
theorem C2_process_game_effect_witness :
    getCell (mtZ2.process_game gW).wins_table 0 1 = getCell mtZ2.wins_table 0 1 + 1 := by
  have h :=
    (C2_process_game_effect mtZ2 gW 0 1 (by decide) (by decide) (by decide) (by decide)
        (by decide) (by decide)).1 rfl
  rw [h, if_pos (by decide)]

/-- C3: `calculate_winrates` writes `(wins[i][j] + s) / (total[i][j] + 2 s)`
with the fixed smoothing constant `s = 1` to every cell, each cell a function
of the corresponding wins and total cells only; in particular a never-observed
cell (total and wins both 0) derives exactly 1/2. -/
theorem C3_calculate_winrates_cells (mt : MatchupTable) (i j : Nat)
    (hi : i < mt.wins_table.length) (hj : j < (mt.wins_table.getD i []).length) :
    getCell mt.calculate_winrates.winrates_table i j =
      (getCell mt.wins_table i j + 1) / (getCell mt.total_games_table i j + 2)
    ∧ (getCell mt.total_games_table i j = 0 → getCell mt.wins_table i j = 0 →
        getCell mt.calculate_winrates.winrates_table i j = 1 / 2) := by
  have h := getCell_calculate_winrates mt i j hi hj
  constructor
  · rw [h]
    unfold winrate_function
    norm_num
  · intro h0 hw0
    rw [h, h0, hw0]
    unfold winrate_function
    norm_num

/-- C3 witness: on the concrete saved state the derived winrate at (0, 0) is
(1 + 1) / (2 + 2) = 1/2, and at a never-observed cell of the fresh state it is
exactly 1/2. -/
theorem C3_calculate_winrates_cells_witness :
    getCell mtW.calculate_winrates.winrates_table 0 0 =
      (getCell mtW.wins_table 0 0 + 1) / (getCell mtW.total_games_table 0 0 + 2) ∧
      getCell mtZ2.calculate_winrates.winrates_table 1 0 = 1 / 2 :=
  ⟨(C3_calculate_winrates_cells mtW 0 0 (by decide) (by decide)).1,
    (C3_calculate_winrates_cells mtZ2 1 0 (by decide) (by decide)).2 (by decide) (by decide)⟩

/-- C10: `load_from_csv` never touches the processed-game counter, whether the
load succeeds or fails, so the instance keeps its prior counter value. -/
theorem C10_load_preserves_gamesProcessed (mt : MatchupTable)
    (file : Option (List (List Cell))) :
    (mt.load_from_csv file).1.gamesProcessed = mt.gamesProcessed := by
  unfold MatchupTable.load_from_csv
  cases file with
  | none => rfl
  | some rows =>
    dsimp only
    split
    · rfl
    · split
      · rfl
      · split
        · rfl
        · split
          · rfl
          · rfl

theorem process_game_total_sym (n : Nat) (mt : MatchupTable) (g : GameInfo)
    (hs : SqShape mt.total_games_table n)
    (hsym : ∀ i j, getCell mt.total_games_table i j = getCell mt.total_games_table j i) :
    SqShape (mt.process_game g).total_games_table n ∧
      ∀ i j, getCell (mt.process_game g).total_games_table i j =
        getCell (mt.process_game g).total_games_table j i := by
  by_cases hd : g.winner = Winner.draw
  · rw [process_game_draw mt g hd]
    exact ⟨hs, hsym⟩
  by_cases he : mt.indices_for_deck g.team_deck = [] ∨ mt.indices_for_deck g.opponent_deck = []
  · rw [process_game_skip mt g hd he]
    exact ⟨hs, hsym⟩
  rw [process_game_active mt g hd he]
  dsimp only
  refine ⟨SqShape_bumpTable _ _ (SqShape_bumpTable _ _ hs), ?_⟩
  intro i j
  rw [getCell_doubleBump_sq hs, getCell_doubleBump_sq hs, hsym i j]
  by_cases h1 : i ∈ mt.indices_for_deck g.team_deck <;>
    by_cases h2 : j ∈ mt.indices_for_deck g.opponent_deck <;>
      by_cases h3 : i ∈ mt.indices_for_deck g.opponent_deck <;>
        by_cases h4 : j ∈ mt.indices_for_deck g.team_deck <;>
          by_cases h5 : i < n <;> by_cases h6 : j < n <;>
            simp [h1, h2, h3, h4, h5, h6]

theorem foldl_total_sym (n : Nat) (games : List GameInfo) :
    ∀ mt : MatchupTable, SqShape mt.total_games_table n →
      (∀ i j, getCell mt.total_games_table i j = getCell mt.total_games_table j i) →
      SqShape ((games.foldl MatchupTable.process_game mt).total_games_table) n ∧
        ∀ i j,
          getCell ((games.foldl MatchupTable.process_game mt).total_games_table) i j =
            getCell ((games.foldl MatchupTable.process_game mt).total_games_table) j i := by
  induction games with
  | nil =>
    intro mt h1 h2
    exact ⟨h1, h2⟩
  | cons g gr ih =>
    intro mt h1 h2
    rw [List.foldl_cons]
    obtain ⟨k1, k2⟩ := process_game_total_sym n mt g h1 h2
    exact ih _ k1 k2

/-- C4: starting from the zeroed tables built by `__init_tables`, the
total-games table stays symmetric across any sequence of `process_game`
calls. -/
theorem C4_total_games_symmetric (allCards : List String) (games : List GameInfo) (i j : Nat) :
    getCell ((games.foldl MatchupTable.process_game (init_tables allCards)).total_games_table)
        i j =
      getCell ((games.foldl MatchupTable.process_game (init_tables allCards)).total_games_table)
        j i := by
  refine (foldl_total_sym allCards.length games (init_tables allCards)
    (SqShape_zeroTable _) ?_).2 i j
  intro a b
  show getCell (zeroTable allCards.length) a b = getCell (zeroTable allCards.length) b a
  rw [getCell_zeroTable, getCell_zeroTable]

theorem process_game_wins_inv (n : Nat) (mt : MatchupTable) (g : GameInfo)
    (hw : SqShape mt.wins_table n) (ht : SqShape mt.total_games_table n)
    (hle : ∀ i j, 0 ≤ getCell mt.wins_table i j ∧
      getCell mt.wins_table i j ≤ getCell mt.total_games_table i j) :
    SqShape (mt.process_game g).wins_table n ∧
      SqShape (mt.process_game g).total_games_table n ∧
      ∀ i j, 0 ≤ getCell (mt.process_game g).wins_table i j ∧
        getCell (mt.process_game g).wins_table i j ≤
          getCell (mt.process_game g).total_games_table i j := by
  by_cases hd : g.winner = Winner.draw
  · rw [process_game_draw mt g hd]
    exact ⟨hw, ht, hle⟩
  by_cases he : mt.indices_for_deck g.team_deck = [] ∨ mt.indices_for_deck g.opponent_deck = []
  · rw [process_game_skip mt g hd he]
    exact ⟨hw, ht, hle⟩
  rw [process_game_active mt g hd he]
  dsimp only
  refine ⟨?_, SqShape_bumpTable _ _ (SqShape_bumpTable _ _ ht), ?_⟩
  · split_ifs
    · exact SqShape_bumpTable _ _ hw
    · exact SqShape_bumpTable _ _ hw
    · exact hw
  · intro i j
    obtain ⟨h0, hle1⟩ := hle i j
    cases hgw : g.winner with
    | draw => exact absurd hgw hd
    | team =>
      simp only [reduceIte]
      rw [getCell_bumpTable_sq hw, getCell_doubleBump_sq ht]
      constructor
      · split_ifs <;> linarith
      · split_ifs <;> linarith
    | opponent =>
      simp only [reduceIte]
      have hne : ¬(Winner.opponent = Winner.team) := by decide
      rw [if_neg hne, getCell_bumpTable_sq hw, getCell_doubleBump_sq ht]
      constructor
      · split_ifs <;> linarith
      · split_ifs <;> linarith

theorem foldl_wins_inv (n : Nat) (games : List GameInfo) :
    ∀ mt : MatchupTable, SqShape mt.wins_table n → SqShape mt.total_games_table n →
      (∀ i j, 0 ≤ getCell mt.wins_table i j ∧
        getCell mt.wins_table i j ≤ getCell mt.total_games_table i j) →
      SqShape ((games.foldl MatchupTable.process_game mt).wins_table) n ∧
        SqShape ((games.foldl MatchupTable.process_game mt).total_games_table) n ∧
        ∀ i j, 0 ≤ getCell ((games.foldl MatchupTable.process_game mt).wins_table) i j ∧
          getCell ((games.foldl MatchupTable.process_game mt).wins_table) i j ≤
            getCell ((games.foldl MatchupTable.process_game mt).total_games_table) i j := by
  induction games with
  | nil =>
    intro mt h1 h2 h3
    exact ⟨h1, h2, h3⟩
  | cons g gr ih =>
    intro mt h1 h2 h3
    rw [List.foldl_cons]
    obtain ⟨k1, k2, k3⟩ := process_game_wins_inv n mt g h1 h2 h3
    exact ih _ k1 k2 k3

/-- C8: from the zeroed tables, after any sequence of `process_game` calls
(which keep every wins cell between 0 and the matching total cell), every
derived winrate cell lies strictly between 0 and 1. -/
theorem C8_winrates_open_interval (allCards : List String) (games : List GameInfo) (i j : Nat)
    (hi : i < allCards.length) (hj : j < allCards.length) :
    0 < getCell
        ((games.foldl MatchupTable.process_game
          (init_tables allCards)).calculate_winrates).winrates_table i j ∧
      getCell
        ((games.foldl MatchupTable.process_game
          (init_tables allCards)).calculate_winrates).winrates_table i j < 1 := by
  have hinit : ∀ a b : Nat, 0 ≤ getCell (init_tables allCards).wins_table a b ∧
      getCell (init_tables allCards).wins_table a b ≤
        getCell (init_tables allCards).total_games_table a b := by
    intro a b
    show (0 : ℚ) ≤ getCell (zeroTable allCards.length) a b ∧
      getCell (zeroTable allCards.length) a b ≤ getCell (zeroTable allCards.length) a b
    rw [getCell_zeroTable]
    exact ⟨le_refl 0, le_refl 0⟩
  obtain ⟨hws, hts, hle⟩ := foldl_wins_inv allCards.length games (init_tables allCards)
    (SqShape_zeroTable _) (SqShape_zeroTable _) hinit
  have hi2 : i < (games.foldl MatchupTable.process_game (init_tables allCards)).wins_table.length := by
    rw [hws.1]
    exact hi
  have hj2 : j <
      ((games.foldl MatchupTable.process_game (init_tables allCards)).wins_table.getD i []).length := by
    rw [hws.2 i hi]
    exact hj
  rw [getCell_calculate_winrates _ i j hi2 hj2]
  obtain ⟨h0, hle2⟩ := hle i j
  unfold winrate_function
  constructor
  · apply div_pos <;> linarith
  · rw [div_lt_one (by linarith)]
    linarith

/-- C8 witness: with a one-card catalog and no games, the smoothed winrate at
(0, 0) is strictly between 0 and 1. -/
theorem C8_winrates_open_interval_witness :
    0 < getCell
        ((([] : List GameInfo).foldl MatchupTable.process_game
          (init_tables [nmA])).calculate_winrates).winrates_table 0 0 ∧
      getCell
        ((([] : List GameInfo).foldl MatchupTable.process_game
          (init_tables [nmA])).calculate_winrates).winrates_table 0 0 < 1 :=
  C8_winrates_open_interval [nmA] [] 0 0 (by decide) (by decide)

theorem loadLoop_winrates_final (tb : Table) (c : List (String × Nat))
    (im : List (Nat × String)) (w t wr : Table) (k : Nat) :
    loadLoop ⟨3, c, im, w, t, wr⟩
        (mapIdxFrom (fun i row => Cell.int i :: row.map Cell.float) k tb) =
      (⟨3, c, im, w, t, wr ++ tb⟩, none) := by
  have h := loadLoop_winrates_block tb c im w t wr k []
  rw [List.append_nil] at h
  rw [h]
  rfl

/-- C1: saving a well-formed state (dict keys and index values distinct, the
two dicts mutually inverse, rectangular tables) and loading the artifact into
any instance reproduces the saved name/index dicts and all three matrices
exactly, with no error. -/
theorem C1_save_load_roundtrip (mt mt2 : MatchupTable)
    (hkeys : (mt.card_name_to_index.map Prod.fst).Nodup)
    (hvals : (mt.card_name_to_index.map Prod.snd).Nodup)
    (himap : mt.index_to_card_name = mt.card_name_to_index.map (fun p => (p.2, p.1)))
    (hw : isRect mt.wins_table = true)
    (ht : isRect mt.total_games_table = true)
    (hr : isRect mt.winrates_table = true) :
    mt2.load_from_csv (some mt.save_to_csv) =
      ({ mt2 with
          card_name_to_index := mt.card_name_to_index
          index_to_card_name := mt.index_to_card_name
          wins_table := mt.wins_table
          total_games_table := mt.total_games_table
          winrates_table := mt.winrates_table }, none) := by
  have hc : insertList ([] : List (String × Nat)) mt.card_name_to_index =
      mt.card_name_to_index := by
    have h := insertList_eq_append mt.card_name_to_index [] hkeys (by simp)
    simpa using h
  have him : insertList ([] : List (Nat × String))
      (mt.card_name_to_index.map (fun p => (p.2, p.1))) =
      mt.card_name_to_index.map (fun p => (p.2, p.1)) := by
    have hnd : ((mt.card_name_to_index.map (fun p => (p.2, p.1))).map Prod.fst).Nodup := by
      rw [List.map_map]
      exact hvals
    have h := insertList_eq_append (mt.card_name_to_index.map (fun p => (p.2, p.1))) []
      hnd (by simp)
    simpa using h
  have hloop : loadLoop initLoadState mt.save_to_csv =
      (⟨3, mt.card_name_to_index, mt.index_to_card_name, mt.wins_table,
        mt.total_games_table, mt.winrates_table⟩, none) := by
    show loadLoop ⟨0, [], [], [], [], []⟩ mt.save_to_csv = _
    unfold MatchupTable.save_to_csv
    simp only [List.append_assoc, List.singleton_append, List.cons_append, List.nil_append]
    rw [loadLoop_mapping_block, hc, him, ← himap]
    rw [loadLoop_divider]
    simp only [Nat.reduceAdd]
    rw [loadLoop_wins_block]
    rw [loadLoop_divider]
    simp only [Nat.reduceAdd]
    rw [loadLoop_total_block]
    rw [loadLoop_divider]
    simp only [Nat.reduceAdd]
    rw [loadLoop_winrates_final]
    simp only [List.nil_append]
  unfold MatchupTable.load_from_csv
  dsimp only
  rw [hloop]
  dsimp only
  simp only [npArray2d, hw, ht, hr, reduceIte]

/-- C1 witness: the concrete two-card state round-trips through save and load
into the concrete second instance. -/
theorem C1_save_load_roundtrip_witness :
    mt2W.load_from_csv (some mtW.save_to_csv) =
      ({ mt2W with
          card_name_to_index := mtW.card_name_to_index
          index_to_card_name := mtW.index_to_card_name
          wins_table := mtW.wins_table
          total_games_table := mtW.total_games_table
          winrates_table := mtW.winrates_table }, none) :=
  C1_save_load_roundtrip mtW mt2W (by decide) (by decide) (by decide) (by decide) (by decide)
    (by decide)

theorem load_success_rect (mt : MatchupTable) (rows : List (List Cell))
    (h : (mt.load_from_csv (some rows)).2 = none) :
    isRect (mt.load_from_csv (some rows)).1.wins_table = true ∧
      isRect (mt.load_from_csv (some rows)).1.total_games_table = true ∧
      isRect (mt.load_from_csv (some rows)).1.winrates_table = true := by
  unfold MatchupTable.load_from_csv at h ⊢
  dsimp only at h ⊢
  rcases hL : loadLoop initLoadState rows with ⟨st, err⟩
  rw [hL] at h
  cases err with
  | some e => exact Option.noConfusion h
  | none =>
    dsimp only at h ⊢
    cases hW : npArray2d st.wins_rows with
    | error e =>
      rw [hW] at h
      exact Option.noConfusion h
    | ok w =>
      rw [hW] at h
      dsimp only at h ⊢
      cases hT : npArray2d st.total_games_rows with
      | error e =>
        rw [hT] at h
        exact Option.noConfusion h
      | ok t =>
        rw [hT] at h
        dsimp only at h ⊢
        cases hR : npArray2d st.winrates_rows with
        | error e =>
          rw [hR] at h
          exact Option.noConfusion h
        | ok wr =>
          rw [hR] at h
          dsimp only at h ⊢
          obtain ⟨he1, he2⟩ := npArray2d_ok hW
          obtain ⟨he3, he4⟩ := npArray2d_ok hT
          obtain ⟨he5, he6⟩ := npArray2d_ok hR
          subst he1
          subst he3
          subst he5
          exact ⟨he2, he4, he6⟩

theorem loadLoop_divider_st (st : LoadState) (rest : List (List Cell)) :
    loadLoop st ([] :: rest) =
      loadLoop { st with dividers_hit := st.dividers_hit + 1 } rest := rfl

theorem loadStep_ok_nonempty (st st' : LoadState) (c0 : Cell) (rest : List Cell)
    (h : loadStep st (c0 :: rest) = Except.ok st') :
    st'.dividers_hit = st.dividers_hit ∧
      (∀ v, v ∈ st.wins_rows → v ∈ st'.wins_rows) ∧
      (∀ v, v ∈ st.total_games_rows → v ∈ st'.total_games_rows) ∧
      (∀ v, v ∈ st.winrates_rows → v ∈ st'.winrates_rows) := by
  simp only [loadStep] at h
  by_cases h0 : st.dividers_hit = 0
  · rw [if_pos h0] at h
    cases hh : rest.head? with
    | none =>
      rw [hh] at h
      exact Except.noConfusion h
    | some c1 =>
      rw [hh] at h
      dsimp only at h
      cases hi : cellToInt c1 with
      | none =>
        rw [hi] at h
        exact Except.noConfusion h
      | some index =>
        rw [hi] at h
        injection h with h
        subst h
        exact ⟨rfl, fun v hv => hv, fun v hv => hv, fun v hv => hv⟩
  · rw [if_neg h0] at h
    by_cases h1 : st.dividers_hit = 1
    · rw [if_pos h1] at h
      cases hp : parseFloats rest with
      | none =>
        rw [hp] at h
        exact Except.noConfusion h
      | some vals =>
        rw [hp] at h
        injection h with h
        subst h
        exact ⟨rfl, fun v hv => List.mem_append_left _ hv, fun v hv => hv, fun v hv => hv⟩
    · rw [if_neg h1] at h
      by_cases h2 : st.dividers_hit = 2
      · rw [if_pos h2] at h
        cases hp : parseFloats rest with
        | none =>
          rw [hp] at h
          exact Except.noConfusion h
        | some vals =>
          rw [hp] at h
          injection h with h
          subst h
          exact ⟨rfl, fun v hv => hv, fun v hv => List.mem_append_left _ hv, fun v hv => hv⟩
      · rw [if_neg h2] at h
        by_cases h3 : st.dividers_hit = 3
        · rw [if_pos h3] at h
          cases hp : parseFloats rest with
          | none =>
            rw [hp] at h
            exact Except.noConfusion h
          | some vals =>
            rw [hp] at h
            injection h with h
            subst h
            exact ⟨rfl, fun v hv => hv, fun v hv => hv,
              fun v hv => List.mem_append_left _ hv⟩
        · rw [if_neg h3] at h
          injection h with h
          subst h
          exact ⟨rfl, fun v hv => hv, fun v hv => hv, fun v hv => hv⟩

theorem loadLoop_ok_mono (rows : List (List Cell)) :
    ∀ st st' : LoadState, loadLoop st rows = (st', none) →
      st'.dividers_hit = st.dividers_hit + rows.count ([] : List Cell) ∧
        (∀ v, v ∈ st.wins_rows → v ∈ st'.wins_rows) ∧
        (∀ v, v ∈ st.total_games_rows → v ∈ st'.total_games_rows) ∧
        (∀ v, v ∈ st.winrates_rows → v ∈ st'.winrates_rows) := by
  induction rows with
  | nil =>
    intro st st' h
    injection h with h1 h2
    subst h1
    exact ⟨by simp, fun v hv => hv, fun v hv => hv, fun v hv => hv⟩
  | cons r rs ih =>
    intro st st' h
    cases r with
    | nil =>
      rw [loadLoop_divider_st] at h
      obtain ⟨hd, m1, m2, m3⟩ := ih _ _ h
      have hd2 : st'.dividers_hit = st.dividers_hit + 1 + rs.count ([] : List Cell) := hd
      have hc : ((([] : List Cell)) :: rs).count ([] : List Cell) =
          rs.count ([] : List Cell) + 1 := by
        simp
      refine ⟨?_, m1, m2, m3⟩
      rw [hc]
      omega
    | cons c0 rest =>
      have hone : loadLoop st ((c0 :: rest) :: rs) =
          match loadStep st (c0 :: rest) with
          | Except.ok st1 => loadLoop st1 rs
          | Except.error e => (st, some e) := rfl
      rw [hone] at h
      cases hs : loadStep st (c0 :: rest) with
      | error e =>
        rw [hs] at h
        injection h with h1 h2
        exact Option.noConfusion h2
      | ok st1 =>
        rw [hs] at h
        obtain ⟨sd, s1, s2, s3⟩ := loadStep_ok_nonempty st st1 c0 rest hs
        obtain ⟨hd, m1, m2, m3⟩ := ih st1 st' h
        have hc : (((c0 :: rest)) :: rs).count ([] : List Cell) =
            rs.count ([] : List Cell) := by
          simp [List.count_cons]
        refine ⟨?_, fun v hv => m1 v (s1 v hv), fun v hv => m2 v (s2 v hv),
          fun v hv => m3 v (s3 v hv)⟩
        rw [hc]
        omega

theorem loadLoop_append (xs : List (List Cell)) :
    ∀ (ys : List (List Cell)) (st : LoadState),
      loadLoop st (xs ++ ys) =
        match loadLoop st xs with
        | (st1, none) => loadLoop st1 ys
        | (st1, some e) => (st1, some e) := by
  induction xs with
  | nil =>
    intro ys st
    rfl
  | cons r rs ih =>
    intro ys st
    show (match loadStep st r with
        | Except.ok st1 => loadLoop st1 (rs ++ ys)
        | Except.error e => (st, some e)) = _
    cases hs : loadStep st r with
    | error e =>
      have hform : loadLoop st (r :: rs) = (st, some e) := by
        show (match loadStep st r with
            | Except.ok st1 => loadLoop st1 rs
            | Except.error e => (st, some e)) = _
        rw [hs]
      dsimp only
      rw [hform]
    | ok st1 =>
      have hform : loadLoop st (r :: rs) = loadLoop st1 rs := by
        show (match loadStep st r with
            | Except.ok st1 => loadLoop st1 rs
            | Except.error e => (st, some e)) = _
        rw [hs]
      dsimp only
      rw [hform]
      exact ih ys st1

theorem load_err_of_loop_err (mt : MatchupTable) (rows : List (List Cell)) (st : LoadState)
    (e : LoadErr) (h : loadLoop initLoadState rows = (st, some e)) :
    (mt.load_from_csv (some rows)).2 = some e := by
  unfold MatchupTable.load_from_csv
  dsimp only
  rw [h]

theorem loop_of_load_success (mt : MatchupTable) (rows : List (List Cell))
    (h : (mt.load_from_csv (some rows)).2 = none) :
    ∃ st, loadLoop initLoadState rows = (st, none) := by
  rcases hL : loadLoop initLoadState rows with ⟨st, err⟩
  cases err with
  | none => exact ⟨st, rfl⟩
  | some e =>
    rw [load_err_of_loop_err mt rows st e hL] at h
    exact Option.noConfusion h

theorem load_success_sections (mt : MatchupTable) (rows : List (List Cell)) (st : LoadState)
    (hL : loadLoop initLoadState rows = (st, none))
    (h : (mt.load_from_csv (some rows)).2 = none) :
    isRect st.wins_rows = true ∧ isRect st.total_games_rows = true ∧
      isRect st.winrates_rows = true := by
  unfold MatchupTable.load_from_csv at h
  dsimp only at h
  rw [hL] at h
  dsimp only at h
  cases hW : npArray2d st.wins_rows with
  | error e =>
    rw [hW] at h
    exact Option.noConfusion h
  | ok w =>
    rw [hW] at h
    dsimp only at h
    cases hT : npArray2d st.total_games_rows with
    | error e =>
      rw [hT] at h
      exact Option.noConfusion h
    | ok t =>
      rw [hT] at h
      dsimp only at h
      cases hR : npArray2d st.winrates_rows with
      | error e =>
        rw [hR] at h
        exact Option.noConfusion h
      | ok wr =>
        exact ⟨(npArray2d_ok hW).2, (npArray2d_ok hT).2, (npArray2d_ok hR).2⟩

theorem parseFloats_length (l : List Cell) :
    ∀ qs, parseFloats l = some qs → qs.length = l.length := by
  induction l with
  | nil =>
    intro qs h
    injection h with h
    subst h
    rfl
  | cons c cs ih =>
    intro qs h
    unfold parseFloats at h
    cases hf : cellToFloat c with
    | none =>
      rw [hf] at h
      exact Option.noConfusion h
    | some q =>
      rw [hf] at h
      cases hp : parseFloats cs with
      | none =>
        rw [hp] at h
        exact Option.noConfusion h
      | some qs2 =>
        rw [hp] at h
        injection h with h
        subst h
        simp [ih qs2 hp]

theorem parseFloats_eq_none (rest : List Cell)
    (h : ∃ c, c ∈ rest ∧ cellToFloat c = none) : parseFloats rest = none := by
  induction rest with
  | nil =>
    rcases h with ⟨c, hc, _⟩
    exact absurd hc (List.not_mem_nil c)
  | cons c cs ih =>
    rcases h with ⟨c1, hc1, hn⟩
    rcases List.mem_cons.mp hc1 with rfl | hc1
    · cases hps : parseFloats cs <;> simp [parseFloats, hn, hps]
    · have hcs := ih ⟨c1, hc1, hn⟩
      cases hcf : cellToFloat c <;> simp [parseFloats, hcf, hcs]

theorem isRect_all {l : Table} (h : isRect l = true) :
    ∀ a, a ∈ l → ∀ b, b ∈ l → a.length = b.length := by
  cases l with
  | nil =>
    intro a ha
    exact absurd ha (List.not_mem_nil a)
  | cons r rs =>
    unfold isRect at h
    rw [List.all_eq_true] at h
    have key : ∀ x, x ∈ r :: rs → x.length = r.length := by
      intro x hx
      rcases List.mem_cons.mp hx with rfl | hx
      · rfl
      · simpa using h x hx
    intro a ha b hb
    rw [key a ha, key b hb]

theorem loadStep_matrix1 (st : LoadState) (c0 : Cell) (rest : List Cell)
    (hd : st.dividers_hit = 1) :
    loadStep st (c0 :: rest) =
      match parseFloats rest with
      | none => Except.error LoadErr.floatParseError
      | some vals => Except.ok { st with wins_rows := st.wins_rows ++ [vals] } := by
  have h0 : ¬st.dividers_hit = 0 := by omega
  simp only [loadStep]
  rw [if_neg h0, if_pos hd]

theorem loadStep_matrix2 (st : LoadState) (c0 : Cell) (rest : List Cell)
    (hd : st.dividers_hit = 2) :
    loadStep st (c0 :: rest) =
      match parseFloats rest with
      | none => Except.error LoadErr.floatParseError
      | some vals =>
        Except.ok { st with total_games_rows := st.total_games_rows ++ [vals] } := by
  have h0 : ¬st.dividers_hit = 0 := by omega
  have h1 : ¬st.dividers_hit = 1 := by omega
  simp only [loadStep]
  rw [if_neg h0, if_neg h1, if_pos hd]

theorem loadStep_matrix3 (st : LoadState) (c0 : Cell) (rest : List Cell)
    (hd : st.dividers_hit = 3) :
    loadStep st (c0 :: rest) =
      match parseFloats rest with
      | none => Except.error LoadErr.floatParseError
      | some vals => Except.ok { st with winrates_rows := st.winrates_rows ++ [vals] } := by
  have h0 : ¬st.dividers_hit = 0 := by omega
  have h1 : ¬st.dividers_hit = 1 := by omega
  have h2 : ¬st.dividers_hit = 2 := by omega
  simp only [loadStep]
  rw [if_neg h0, if_neg h1, if_neg h2, if_pos hd]

theorem load_fails_nonnumeric (mt : MatchupTable) (pre : List (List Cell)) (c0 : Cell)
    (rest : List Cell) (post : List (List Cell)) (h1 : 1 ≤ pre.count ([] : List Cell))
    (h3 : pre.count ([] : List Cell) ≤ 3)
    (hex : ∃ c, c ∈ rest ∧ cellToFloat c = none) :
    (mt.load_from_csv (some (pre ++ (c0 :: rest) :: post))).2 ≠ none := by
  have hp : parseFloats rest = none := parseFloats_eq_none rest hex
  intro hsucc
  obtain ⟨st, hL⟩ := loop_of_load_success mt _ hsucc
  rw [loadLoop_append] at hL
  rcases hpre : loadLoop initLoadState pre with ⟨st1, err1⟩
  rw [hpre] at hL
  cases err1 with
  | some e =>
    dsimp only at hL
    injection hL with ha hb
    exact Option.noConfusion hb
  | none =>
    dsimp only at hL
    have hd := (loadLoop_ok_mono pre initLoadState st1 hpre).1
    have h00 : initLoadState.dividers_hit = 0 := rfl
    have hstep : loadStep st1 (c0 :: rest) = Except.error LoadErr.floatParseError := by
      rcases (show st1.dividers_hit = 1 ∨ st1.dividers_hit = 2 ∨ st1.dividers_hit = 3 by
        omega) with hd1 | hd1 | hd1
      · rw [loadStep_matrix1 st1 c0 rest hd1, hp]
      · rw [loadStep_matrix2 st1 c0 rest hd1, hp]
      · rw [loadStep_matrix3 st1 c0 rest hd1, hp]
    have hred : loadLoop st1 ((c0 :: rest) :: post) =
        (st1, some LoadErr.floatParseError) := by
      show (match loadStep st1 (c0 :: rest) with
          | Except.ok s => loadLoop s post
          | Except.error e => (st1, some e)) = _
      rw [hstep]
    rw [hred] at hL
    injection hL with ha hb
    exact Option.noConfusion hb

theorem load_fails_ragged_section (mt : MatchupTable) (pre : List (List Cell)) (c0 : Cell)
    (rest : List Cell) (mid : List (List Cell)) (c1 : Cell) (rest2 : List Cell)
    (post : List (List Cell)) (h1 : 1 ≤ pre.count ([] : List Cell))
    (h3 : pre.count ([] : List Cell) ≤ 3) (hmid : mid.count ([] : List Cell) = 0)
    (hlen : rest.length ≠ rest2.length) :
    (mt.load_from_csv (some (pre ++ (c0 :: rest) :: (mid ++ (c1 :: rest2) :: post)))).2 ≠
      none := by
  intro hsucc
  obtain ⟨st, hL⟩ := loop_of_load_success mt _ hsucc
  have hsect := load_success_sections mt _ st hL hsucc
  rw [loadLoop_append] at hL
  rcases hpre : loadLoop initLoadState pre with ⟨st1, err1⟩
  rw [hpre] at hL
  cases err1 with
  | some e =>
    dsimp only at hL
    injection hL with ha hb
    exact Option.noConfusion hb
  | none =>
    dsimp only at hL
    have hd := (loadLoop_ok_mono pre initLoadState st1 hpre).1
    have h00 : initLoadState.dividers_hit = 0 := rfl
    have hL1 : (match loadStep st1 (c0 :: rest) with
        | Except.ok s => loadLoop s (mid ++ (c1 :: rest2) :: post)
        | Except.error e => (st1, some e)) = (st, none) := hL
    rcases (show st1.dividers_hit = 1 ∨ st1.dividers_hit = 2 ∨ st1.dividers_hit = 3 by
      omega) with hd1 | hd1 | hd1
    · rw [loadStep_matrix1 st1 c0 rest hd1] at hL1
      cases hpf : parseFloats rest with
      | none =>
        rw [hpf] at hL1
        dsimp only at hL1
        injection hL1 with ha hb
        exact Option.noConfusion hb
      | some vals =>
        rw [hpf] at hL1
        dsimp only at hL1
        rw [loadLoop_append] at hL1
        rcases hmid2 : loadLoop { st1 with wins_rows := st1.wins_rows ++ [vals] } mid
          with ⟨st3, err3⟩
        rw [hmid2] at hL1
        cases err3 with
        | some e =>
          dsimp only at hL1
          injection hL1 with ha hb
          exact Option.noConfusion hb
        | none =>
          dsimp only at hL1
          obtain ⟨hd3, m1, m2, m3⟩ := loadLoop_ok_mono mid _ st3 hmid2
          have hdmid : ({ st1 with wins_rows := st1.wins_rows ++ [vals] } :
              LoadState).dividers_hit = st1.dividers_hit := rfl
          have hd3x : st3.dividers_hit = 1 := by omega
          have hv1 : vals ∈ st3.wins_rows := by
            apply m1
            show vals ∈ st1.wins_rows ++ [vals]
            exact List.mem_append_right _ (List.mem_singleton.mpr rfl)
          have hL2 : (match loadStep st3 (c1 :: rest2) with
              | Except.ok s => loadLoop s post
              | Except.error e => (st3, some e)) = (st, none) := hL1
          cases hs2 : loadStep st3 (c1 :: rest2) with
          | error e =>
            rw [hs2] at hL2
            dsimp only at hL2
            injection hL2 with ha hb
            exact Option.noConfusion hb
          | ok st4 =>
            rw [hs2] at hL2
            dsimp only at hL2
            rw [loadStep_matrix1 st3 c1 rest2 hd3x] at hs2
            cases hpf2 : parseFloats rest2 with
            | none =>
              rw [hpf2] at hs2
              exact Except.noConfusion hs2
            | some vals2 =>
              rw [hpf2] at hs2
              injection hs2 with hs2
              obtain ⟨pd, p1, p2, p3⟩ := loadLoop_ok_mono post st4 st hL2
              have hv1f : vals ∈ st.wins_rows := by
                apply p1
                rw [← hs2]
                show vals ∈ st3.wins_rows ++ [vals2]
                exact List.mem_append_left _ hv1
              have hv2f : vals2 ∈ st.wins_rows := by
                apply p1
                rw [← hs2]
                show vals2 ∈ st3.wins_rows ++ [vals2]
                exact List.mem_append_right _ (List.mem_singleton.mpr rfl)
              have heq := isRect_all hsect.1 vals hv1f vals2 hv2f
              rw [parseFloats_length rest vals hpf,
                parseFloats_length rest2 vals2 hpf2] at heq
              exact hlen heq
    · rw [loadStep_matrix2 st1 c0 rest hd1] at hL1
      cases hpf : parseFloats rest with
      | none =>
        rw [hpf] at hL1
        dsimp only at hL1
        injection hL1 with ha hb
        exact Option.noConfusion hb
      | some vals =>
        rw [hpf] at hL1
        dsimp only at hL1
        rw [loadLoop_append] at hL1
        rcases hmid2 : loadLoop
            { st1 with total_games_rows := st1.total_games_rows ++ [vals] } mid
          with ⟨st3, err3⟩
        rw [hmid2] at hL1
        cases err3 with
        | some e =>
          dsimp only at hL1
          injection hL1 with ha hb
          exact Option.noConfusion hb
        | none =>
          dsimp only at hL1
          obtain ⟨hd3, m1, m2, m3⟩ := loadLoop_ok_mono mid _ st3 hmid2
          have hdmid : ({ st1 with total_games_rows := st1.total_games_rows ++ [vals] } :
              LoadState).dividers_hit = st1.dividers_hit := rfl
          have hd3x : st3.dividers_hit = 2 := by omega
          have hv1 : vals ∈ st3.total_games_rows := by
            apply m2
            show vals ∈ st1.total_games_rows ++ [vals]
            exact List.mem_append_right _ (List.mem_singleton.mpr rfl)
          have hL2 : (match loadStep st3 (c1 :: rest2) with
              | Except.ok s => loadLoop s post
              | Except.error e => (st3, some e)) = (st, none) := hL1
          cases hs2 : loadStep st3 (c1 :: rest2) with
          | error e =>
            rw [hs2] at hL2
            dsimp only at hL2
            injection hL2 with ha hb
            exact Option.noConfusion hb
          | ok st4 =>
            rw [hs2] at hL2
            dsimp only at hL2
            rw [loadStep_matrix2 st3 c1 rest2 hd3x] at hs2
            cases hpf2 : parseFloats rest2 with
            | none =>
              rw [hpf2] at hs2
              exact Except.noConfusion hs2
            | some vals2 =>
              rw [hpf2] at hs2
              injection hs2 with hs2
              obtain ⟨pd, p1, p2, p3⟩ := loadLoop_ok_mono post st4 st hL2
              have hv1f : vals ∈ st.total_games_rows := by
                apply p2
                rw [← hs2]
                show vals ∈ st3.total_games_rows ++ [vals2]
                exact List.mem_append_left _ hv1
              have hv2f : vals2 ∈ st.total_games_rows := by
                apply p2
                rw [← hs2]
                show vals2 ∈ st3.total_games_rows ++ [vals2]
                exact List.mem_append_right _ (List.mem_singleton.mpr rfl)
              have heq := isRect_all hsect.2.1 vals hv1f vals2 hv2f
              rw [parseFloats_length rest vals hpf,
                parseFloats_length rest2 vals2 hpf2] at heq
              exact hlen heq
    · rw [loadStep_matrix3 st1 c0 rest hd1] at hL1
      cases hpf : parseFloats rest with
      | none =>
        rw [hpf] at hL1
        dsimp only at hL1
        injection hL1 with ha hb
        exact Option.noConfusion hb
      | some vals =>
        rw [hpf] at hL1
        dsimp only at hL1
        rw [loadLoop_append] at hL1
        rcases hmid2 : loadLoop { st1 with winrates_rows := st1.winrates_rows ++ [vals] } mid
          with ⟨st3, err3⟩
        rw [hmid2] at hL1
        cases err3 with
        | some e =>
          dsimp only at hL1
          injection hL1 with ha hb
          exact Option.noConfusion hb
        | none =>
          dsimp only at hL1
          obtain ⟨hd3, m1, m2, m3⟩ := loadLoop_ok_mono mid _ st3 hmid2
          have hdmid : ({ st1 with winrates_rows := st1.winrates_rows ++ [vals] } :
              LoadState).dividers_hit = st1.dividers_hit := rfl
          have hd3x : st3.dividers_hit = 3 := by omega
          have hv1 : vals ∈ st3.winrates_rows := by
            apply m3
            show vals ∈ st1.winrates_rows ++ [vals]
            exact List.mem_append_right _ (List.mem_singleton.mpr rfl)
          have hL2 : (match loadStep st3 (c1 :: rest2) with
              | Except.ok s => loadLoop s post
              | Except.error e => (st3, some e)) = (st, none) := hL1
          cases hs2 : loadStep st3 (c1 :: rest2) with
          | error e =>
            rw [hs2] at hL2
            dsimp only at hL2
            injection hL2 with ha hb
            exact Option.noConfusion hb
          | ok st4 =>
            rw [hs2] at hL2
            dsimp only at hL2
            rw [loadStep_matrix3 st3 c1 rest2 hd3x] at hs2
            cases hpf2 : parseFloats rest2 with
            | none =>
              rw [hpf2] at hs2
              exact Except.noConfusion hs2
            | some vals2 =>
              rw [hpf2] at hs2
              injection hs2 with hs2
              obtain ⟨pd, p1, p2, p3⟩ := loadLoop_ok_mono post st4 st hL2
              have hv1f : vals ∈ st.winrates_rows := by
                apply p3
                rw [← hs2]
                show vals ∈ st3.winrates_rows ++ [vals2]
                exact List.mem_append_left _ hv1
              have hv2f : vals2 ∈ st.winrates_rows := by
                apply p3
                rw [← hs2]
                show vals2 ∈ st3.winrates_rows ++ [vals2]
                exact List.mem_append_right _ (List.mem_singleton.mpr rfl)
              have heq := isRect_all hsect.2.2 vals hv1f vals2 hv2f
              rw [parseFloats_length rest vals hpf,
                parseFloats_length rest2 vals2 hpf2] at heq
              exact hlen heq

/-- C6 (amended): the load fails with a structural error on a non-numeric cell
among the value cells of any matrix-section record (a nonempty record after
one, two or three dividers), and it never silently produces a ragged matrix —
every successful load yields three rectangular matrices, and two records of
the same matrix section whose value-cell counts differ always abort the load;
but a missing matrix section, a missing delimiter, cross-section length
inconsistency, or a non-numeric cell in the discarded leading position are not
detected (see the counterexample). -/
theorem C6_load_structural_errors :
    (∀ (mt : MatchupTable) (pre : List (List Cell)) (c0 : Cell) (rest : List Cell)
        (post : List (List Cell)),
        1 ≤ pre.count ([] : List Cell) → pre.count ([] : List Cell) ≤ 3 →
        (∃ c, c ∈ rest ∧ cellToFloat c = none) →
        (mt.load_from_csv (some (pre ++ (c0 :: rest) :: post))).2 ≠ none)
    ∧ (∀ (mt : MatchupTable) (rows : List (List Cell)),
        (mt.load_from_csv (some rows)).2 = none →
          isRect (mt.load_from_csv (some rows)).1.wins_table = true ∧
            isRect (mt.load_from_csv (some rows)).1.total_games_table = true ∧
            isRect (mt.load_from_csv (some rows)).1.winrates_table = true)
    ∧ (∀ (mt : MatchupTable) (pre : List (List Cell)) (c0 : Cell) (rest : List Cell)
        (mid : List (List Cell)) (c1 : Cell) (rest2 : List Cell) (post : List (List Cell)),
        1 ≤ pre.count ([] : List Cell) → pre.count ([] : List Cell) ≤ 3 →
        mid.count ([] : List Cell) = 0 → rest.length ≠ rest2.length →
        (mt.load_from_csv
          (some (pre ++ (c0 :: rest) :: (mid ++ (c1 :: rest2) :: post)))).2 ≠ none) :=
  ⟨load_fails_nonnumeric, load_success_rect, load_fails_ragged_section⟩

/-- C6 counterexample: an artifact whose winrates section and final delimiter
are missing, and whose totals section has a different column count from the
wins section, loads with no error, silently producing an empty winrates
matrix; likewise a non-numeric cell confined to a row's discarded leading
position loads with no error — refuting the claim that every malformed or
incomplete artifact fails with a structural error. -/
theorem C6_load_counterexample :
    (mtZ2.load_from_csv (some fileMissingSection)).2 = none ∧
      (mtZ2.load_from_csv (some fileMissingSection)).1.winrates_table = [] ∧
      (mtZ2.load_from_csv (some fileMissingSection)).1.wins_table = [[1]] ∧
      (mtZ2.load_from_csv (some fileMissingSection)).1.total_games_table = [[2, 3]] ∧
      (mtZ2.load_from_csv (some fileLeadStr)).2 = none := by
  decide

/-- C6 witness: the three universal parts applied at concrete artifacts — the
non-numeric-value-cell file fails, the well-formed file loads rectangular, and
the ragged-wins-section file fails. -/
theorem C6_load_structural_errors_witness :
    (mt2W.load_from_csv (some fileNonNumeric)).2 ≠ none ∧
      isRect (mtZ2.load_from_csv (some fileGood)).1.wins_table = true ∧
      (mtZ2.load_from_csv (some fileRagged)).2 ≠ none :=
  ⟨C6_load_structural_errors.1 mt2W [[Cell.str nmA, Cell.int 0], []] (Cell.int 0)
      [Cell.str nmX] [] (by decide) (by decide) ⟨Cell.str nmX, by decide, rfl⟩,
    (C6_load_structural_errors.2.1 mtZ2 fileGood (by decide)).1,
    C6_load_structural_errors.2.2 mtZ2 [[]] (Cell.int 0) [Cell.float 1, Cell.float 2]
      [] (Cell.int 1) [Cell.float 3] [] (by decide) (by decide) (by decide) (by decide)⟩

/-- C9 (amended): `load_from_csv` clears both dicts before touching the file —
on a missing file it fails leaving both empty — and the resulting dicts never
depend on the instance's prior dicts; but a load that fails after the mapping
section leaves the dicts holding the pairs read from the file, not empty (see
the counterexample). -/
theorem C9_load_clears_mappings :
    (∀ mt : MatchupTable,
        mt.load_from_csv none =
          ({ mt with
              card_name_to_index := []
              index_to_card_name := ([] : List (Nat × String)) },
            some LoadErr.fileNotFound))
    ∧ (∀ (mt mt2 : MatchupTable) (rows : List (List Cell)),
        (mt.load_from_csv (some rows)).1.card_name_to_index =
            (mt2.load_from_csv (some rows)).1.card_name_to_index ∧
          (mt.load_from_csv (some rows)).1.index_to_card_name =
            (mt2.load_from_csv (some rows)).1.index_to_card_name) := by
  constructor
  · intro mt
    rfl
  · intro mt mt2 rows
    unfold MatchupTable.load_from_csv
    dsimp only
    rcases hL : loadLoop initLoadState rows with ⟨st, err⟩
    cases err with
    | some e => exact ⟨rfl, rfl⟩
    | none =>
      dsimp only
      cases hW : npArray2d st.wins_rows with
      | error e => exact ⟨rfl, rfl⟩
      | ok w =>
        cases hT : npArray2d st.total_games_rows with
        | error e => exact ⟨rfl, rfl⟩
        | ok t =>
          cases hR : npArray2d st.winrates_rows with
          | error e => exact ⟨rfl, rfl⟩
          | ok wr => exact ⟨rfl, rfl⟩

/-- C9 counterexample: loading a file that fails on a non-numeric wins cell
into an instance with a non-empty prior catalog fails, yet leaves the
name-to-index dict holding the pair read from the file — neither empty nor the
prior state — refuting the claim that every failed load leaves both mappings
empty. -/
theorem C9_load_counterexample :
    (mtW.load_from_csv (some fileNonNumeric)).2 = some LoadErr.floatParseError ∧
      (mtW.load_from_csv (some fileNonNumeric)).1.card_name_to_index = [(nmA, 0)] ∧
      (mtW.load_from_csv (some fileNonNumeric)).1.card_name_to_index ≠ [] ∧
      (mtW.load_from_csv (some fileNonNumeric)).1.card_name_to_index ≠
        mtW.card_name_to_index := by
  decide

end CRoyale
